import Mathlib

/-!
Shallow embedding of the `banana-slides` image-to-editable-PPTX conversion
pipeline, as orchestrated by `src/banana_slides/cli.py` (`convert` command and
its helpers `collect_image_paths` and `create_service_config`).

Conventions of the embedding:
* Python floats are modelled as exact rationals (`ℚ`); pixel dimensions are
  natural numbers.
* The filesystem is an explicit parameter (`PathNode` lookup, existence
  predicates) instead of ambient `IO` state.
* The worker pool of `convert` is modelled by an explicit completion order:
  a list of indices in which the submitted futures finish; each completed
  future writes its result into its own index slot, exactly as the
  `as_completed` loop does.
* Code that lives in `services.image_editability` / `core.exporter` (absent
  from the visible sources; only its call sites are visible) is modelled from
  the spec and marked `Modelled from the spec:` in its doc comment.
* Logging side effects are modelled as explicit lists of emitted warnings.
-/

namespace BananaSlides

/-- Result of one image analysis, as consumed by the slide-size loop of
`convert` (`img.width` / `img.height` in pixels). -/
structure EditableImage where
  width : Nat
  height : Nat
deriving DecidableEq, Repr, Inhabited

/-- Modelled from the spec: the concrete inpaint provider objects built by
`InpaintProviderFactory` (in `services.image_editability`, absent from the
visible sources). Only their identity matters to the CLI layer. -/
inductive InpaintProvider where
  | generative
  | baidu
  | hybridDefault
deriving DecidableEq, Repr

/-- Registry of inpaint providers; the CLI only uses `register_default`,
so the embedding keeps just the default slot. A fresh registry
(`InpaintProviderRegistry()`) has no default. -/
structure InpaintProviderRegistry where
  defaultProvider : Option InpaintProvider := none
deriving DecidableEq, Repr

/-- Sets the fallback-of-last-resort provider. -/
def InpaintProviderRegistry.register_default (r : InpaintProviderRegistry)
    (p : InpaintProvider) : InpaintProviderRegistry :=
  { r with defaultProvider := some p }

/-- The service configuration object built once per run
(fields as passed by `create_service_config` in `cli.py`). -/
structure ServiceConfig where
  use_hybrid_extractor : Bool
  use_hybrid_inpaint : Bool
  max_depth : Nat
  inpaint_registry : InpaintProviderRegistry
deriving DecidableEq, Repr

/-- Modelled from the spec: `ServiceConfig.from_defaults` lives in
`services.image_editability`, absent from the visible sources. It constructs
the configuration record from the given flags and depth, with a default
(hybrid) inpaint registry attached. -/
def ServiceConfig.from_defaults (use_hybrid_extractor use_hybrid_inpaint : Bool)
    (max_depth : Nat) : ServiceConfig :=
  { use_hybrid_extractor := use_hybrid_extractor
    use_hybrid_inpaint := use_hybrid_inpaint
    max_depth := max_depth
    inpaint_registry := { defaultProvider := some .hybridDefault } }

/-- Modelled from the spec: `InpaintProviderFactory.create_generative_edit_provider`
(absent from the visible sources) always yields a provider. -/
def create_generative_edit_provider : InpaintProvider :=
  .generative

/-- Modelled from the spec: `InpaintProviderFactory.create_baidu_inpaint_provider`
(absent from the visible sources) may yield no provider (`None`) when the
Baidu backend is unavailable; availability is passed in as a parameter. -/
def create_baidu_inpaint_provider (baiduAvailable : Bool) : Option InpaintProvider :=
  if baiduAvailable then some .baidu else none

/-- Observable outcome of `create_service_config` (`cli.py` lines 127-163):
the returned config, the trace of field names assigned on the config object
after `ServiceConfig.from_defaults` returned it, and the warnings logged. -/
structure ConfigResult where
  config : ServiceConfig
  postAssignments : List String
  warnings : List String
deriving DecidableEq, Repr

/-- Embedding of `create_service_config(extractor_method, inpaint_method)`
(`cli.py` lines 127-163). The availability of the Baidu backend is an explicit
parameter (it decides whether `create_baidu_inpaint_provider` returns a
provider). -/
def create_service_config (extractor_method inpaint_method : String)
    (baiduAvailable : Bool) : ConfigResult :=
  let use_hybrid_extractor := extractor_method == "hybrid"
  let use_hybrid_inpaint := inpaint_method == "hybrid"
  let config := ServiceConfig.from_defaults use_hybrid_extractor use_hybrid_inpaint 1
  if inpaint_method != "hybrid" then
    let inpaint_registry : InpaintProviderRegistry := {}
    if inpaint_method == "generative" then
      let provider := create_generative_edit_provider
      let inpaint_registry := inpaint_registry.register_default provider
      { config := { config with inpaint_registry := inpaint_registry }
        postAssignments := ["inpaint_registry"]
        warnings := [] }
    else if inpaint_method == "baidu" then
      match create_baidu_inpaint_provider baiduAvailable with
      | some provider =>
        let inpaint_registry := inpaint_registry.register_default provider
        { config := { config with inpaint_registry := inpaint_registry }
          postAssignments := ["inpaint_registry"]
          warnings := [] }
      | none =>
        let provider := create_generative_edit_provider
        let inpaint_registry := inpaint_registry.register_default provider
        { config := { config with inpaint_registry := inpaint_registry }
          postAssignments := ["inpaint_registry"]
          warnings := ["Baidu inpainting unavailable, falling back to generative"] }
    else
      { config := { config with inpaint_registry := inpaint_registry }
        postAssignments := ["inpaint_registry"]
        warnings := [] }
  else
    { config := config, postAssignments := [], warnings := [] }

/-- One entry of a directory listing, as seen through `pathlib`:
its name (the sort key of `sorted(path.iterdir())`), its `suffix`
(extension with leading dot, possibly empty), and the string produced by
`str(entry.resolve())`. -/
structure DirEntry where
  name : String
  suffix : String
  resolved : String
deriving DecidableEq, Repr

/-- What the filesystem says about one path argument: an existing file
(with its `suffix` and resolved form), an existing directory (with its
entries), or a nonexistent path. -/
inductive PathNode where
  | file (suffix : String) (resolved : String)
  | dir (entries : List DirEntry)
  | missing
deriving DecidableEq, Repr

/-- The image extension set of `collect_image_paths` (`cli.py` line 106). -/
def image_extensions : List String :=
  [".png", ".jpg", ".jpeg", ".webp", ".bmp"]

/-- Embedding of Python's `str.lower()` as used on `path.suffix`
(`cli.py` lines 113 and 119): lowercase every character. -/
def strLower (s : String) : String :=
  ⟨s.data.map Char.toLower⟩

/-- Inserts an entry into a name-sorted list, keeping it sorted:
one step of the embedding of Python's `sorted(path.iterdir())`. -/
def insertEntry (e : DirEntry) : List DirEntry → List DirEntry
  | [] => [e]
  | x :: xs => if e.name < x.name then e :: x :: xs else x :: insertEntry e xs

/-- Embedding of `sorted(path.iterdir())`: the directory's entries in
ascending name order. -/
def sortEntries : List DirEntry → List DirEntry
  | [] => []
  | e :: rest => insertEntry e (sortEntries rest)

/-- One iteration of the `for path_str in paths` loop of
`collect_image_paths` (`cli.py` lines 109-122), acting on the accumulated
(result, warnings) pair. -/
def collectStep (lookup : String → PathNode) (acc : List String × List String)
    (path_str : String) : List String × List String :=
  match lookup path_str with
  | .file suffix resolved =>
    if strLower suffix ∈ image_extensions then
      (acc.1 ++ [resolved], acc.2)
    else
      (acc.1, acc.2 ++ ["Skipping non-image file: " ++ path_str])
  | .dir entries =>
    ((sortEntries entries).foldl
      (fun r e =>
        if strLower e.suffix ∈ image_extensions then r ++ [e.resolved] else r)
      acc.1,
     acc.2)
  | .missing =>
    (acc.1, acc.2 ++ ["Path does not exist: " ++ path_str])

/-- Embedding of `collect_image_paths(paths)` (`cli.py` lines 104-124).
Returns the collected image paths together with the warnings logged. -/
def collect_image_paths (lookup : String → PathNode) (paths : List String) :
    List String × List String :=
  paths.foldl (collectStep lookup) ([], [])

/-- The contribution of a single path argument to the result of
`collect_image_paths`, phrased the way the specification describes it:
a matching file argument contributes itself, a directory argument
contributes its matching entries in sorted name order, everything else
contributes nothing. -/
def imageArgContribution (lookup : String → PathNode) (p : String) : List String :=
  match lookup p with
  | .file suffix resolved =>
    if strLower suffix ∈ image_extensions then [resolved] else []
  | .dir entries =>
    (sortEntries entries).filterMap
      (fun e => if strLower e.suffix ∈ image_extensions then some e.resolved else none)
  | .missing => []

/-- The warning (if any) a single path argument makes `collect_image_paths`
log. -/
def warnContribution (lookup : String → PathNode) (p : String) : Option String :=
  match lookup p with
  | .file suffix _ =>
    if strLower suffix ∈ image_extensions then none
    else some ("Skipping non-image file: " ++ p)
  | .dir _ => none
  | .missing => some ("Path does not exist: " ++ p)

/-- Running minimum over a list, seeded with `float('inf')`: `none` plays
the role of infinity, and `min ∞ x = x`. Embeds the
`min_width = min(min_width, img.width)` accumulation of `convert`
(`cli.py` lines 608-621). -/
def foldMinBy (f : EditableImage → Nat) (imgs : List EditableImage) : Option Nat :=
  imgs.foldl
    (fun acc img =>
      some (match acc with
            | none => f img
            | some m => min m (f img)))
    none

/-- Slide canvas size chosen by `convert` (`cli.py` lines 606-627): the
per-axis minimum over the analyzed images, or the 1920×1080 default when
the batch is empty. -/
def slideSize (imgs : List EditableImage) : Nat × Nat :=
  ((foldMinBy (fun img => img.width) imgs).getD 1920,
   (foldMinBy (fun img => img.height) imgs).getD 1080)

/-- Relative deviation of an image's aspect ratio from 16:9, with Python's
float arithmetic modelled as exact rationals
(`abs(aspect_ratio - 16/9) / (16/9)`, `cli.py` lines 612-613). -/
def ratioDiff (img : EditableImage) : ℚ :=
  |((img.width : ℚ) / (img.height : ℚ)) - 16 / 9| / (16 / 9)

/-- Whether the slide-size loop logs the not-16:9 warning for this image
(`ratio_diff > ASPECT_RATIO_TOLERANCE`, tolerance 0.02). -/
def outOfTol (img : EditableImage) : Bool :=
  decide (ratioDiff img > 2 / 100)

/-- The 1-based indices for which the slide-size loop of `convert` logs
"Image {idx + 1} is not 16:9" (`cli.py` lines 611-618), in emission order.
The first argument is the running 0-based index of `enumerate`. -/
def ratioWarnings : Nat → List EditableImage → List Nat
  | _, [] => []
  | idx, img :: rest =>
    (if outOfTol img then [idx + 1] else []) ++ ratioWarnings (idx + 1) rest

/-- An output path as `convert` manipulates it: `Path(output)` split into its
`stem` and `suffix` (the only parts lines 632-636 touch). -/
structure OutPath where
  stem : String
  suffix : String
deriving DecidableEq, Repr

/-- The path `output_path.with_name(f"{stem}_1{suffix}")` built when the
requested output already exists. -/
def renamedOnce (p : OutPath) : OutPath :=
  { stem := p.stem ++ "_1", suffix := p.suffix }

/-- Embedding of the collision handling of `convert` (`cli.py` lines
632-636): if the requested path exists, switch to the `_1` variant, without
checking whether that variant exists. -/
def resolveOutputPath (ex : OutPath → Bool) (p : OutPath) : OutPath :=
  if ex p then renamedOnce p else p

/-- Embedding of the `as_completed` loop of `convert` (`cli.py` lines
560-587): `order` lists the indices of the submitted futures in completion
order; each completed future writes its result into its own slot of the
preallocated `results` list, and the first exception re-raised by
`future.result()` aborts the loop. -/
def collectResults (analyze : α → Except ε β) (paths : List α) :
    List Nat → List (Option β) → Except ε (List (Option β))
  | [], results => .ok results
  | idx :: rest, results =>
    match paths[idx]? with
    | none => collectResults analyze paths rest results
    | some p =>
      match analyze p with
      | .ok v => collectResults analyze paths rest (results.set idx (some v))
      | .error e => .error e

/-- Reads every slot of the results list; `none` means a slot that was never
filled, whose later use as an image would raise (and be caught by the outer
`except` of `convert`). -/
def allSome : List (Option β) → Option (List β)
  | [] => some []
  | none :: _ => none
  | some b :: rest => (allSome rest).map (fun l => b :: l)

/-- The output document, as far as the CLI layer observes it: canvas size,
one slide per editable image, and the path it was written to. -/
structure Document where
  slideWidth : Nat
  slideHeight : Nat
  slideCount : Nat
  outputPath : OutPath
deriving DecidableEq, Repr

/-- Modelled from the spec:
`ExportService.create_editable_pptx_with_recursive_analysis` (in
`core.exporter`, absent from the visible sources) writes a document with one
slide per editable image on the given canvas, at the given path. -/
def create_editable_pptx (editable_images : List EditableImage)
    (slide_width slide_height : Nat) (out : OutPath) : Document :=
  { slideWidth := slide_width
    slideHeight := slide_height
    slideCount := editable_images.length
    outputPath := out }

/-- Modelled from the spec: a document is valid and openable when its canvas
has positive dimensions. -/
def Document.isOpenable (d : Document) : Prop :=
  0 < d.slideWidth ∧ 0 < d.slideHeight

/-- Overall outcome of the `convert` command. -/
inductive ConvertOutcome (ε : Type) where
  | noValidImages : ConvertOutcome ε
  | conversionFailed : Option ε → ConvertOutcome ε
  | exported : Document → ConvertOutcome ε
deriving DecidableEq

/-- Embedding of the `convert` command (`cli.py` lines 529-656): collect the
image paths; abort when none; analyze them through the worker pool (with the
given completion order); a raised analysis failure is caught by the outer
`except` and ends the run with no document (`conversionFailed (some e)`);
using a never-filled result slot as an image likewise aborts
(`conversionFailed none`); otherwise compute the canvas, resolve the output
collision and export. -/
def convertRun (lookup : String → PathNode)
    (analyze : String → Except ε EditableImage) (order : List Nat)
    (ex : OutPath → Bool) (out : OutPath) (args : List String) :
    ConvertOutcome ε :=
  let image_paths := (collect_image_paths lookup args).1
  if image_paths.isEmpty then .noValidImages
  else
    match collectResults analyze image_paths order
        (List.replicate image_paths.length none) with
    | .error e => .conversionFailed (some e)
    | .ok results =>
      match allSome results with
      | none => .conversionFailed none
      | some editable_images =>
        let size := slideSize editable_images
        let output_path := resolveOutputPath ex out
        .exported (create_editable_pptx editable_images size.1 size.2 output_path)

/-! Minimum-fold helper lemmas for the slide-size computation. -/

theorem foldlMin_le_init (f : EditableImage → Nat) (xs : List EditableImage) (m : Nat) :
    xs.foldl (fun a img => min a (f img)) m ≤ m := by
  induction xs generalizing m with
  | nil => simp
  | cons x xs ih =>
    calc (x :: xs).foldl (fun a img => min a (f img)) m
        = xs.foldl (fun a img => min a (f img)) (min m (f x)) := rfl
      _ ≤ min m (f x) := ih _
      _ ≤ m := min_le_left _ _

theorem foldlMin_le_mem (f : EditableImage → Nat) (xs : List EditableImage) (m : Nat) :
    ∀ img ∈ xs, xs.foldl (fun a i => min a (f i)) m ≤ f img := by
  induction xs generalizing m with
  | nil => intro img h; cases h
  | cons x xs ih =>
    intro img h
    rcases List.mem_cons.mp h with rfl | h
    · calc (img :: xs).foldl (fun a i => min a (f i)) m
          = xs.foldl (fun a i => min a (f i)) (min m (f img)) := rfl
        _ ≤ min m (f img) := foldlMin_le_init f xs _
        _ ≤ f img := min_le_right _ _
    · exact ih (min m (f x)) img h

theorem foldlMin_mem_or (f : EditableImage → Nat) (xs : List EditableImage) (m : Nat) :
    xs.foldl (fun a i => min a (f i)) m = m
      ∨ xs.foldl (fun a i => min a (f i)) m ∈ xs.map f := by
  induction xs generalizing m with
  | nil => left; rfl
  | cons x xs ih =>
    have h1 : (x :: xs).foldl (fun a i => min a (f i)) m
        = xs.foldl (fun a i => min a (f i)) (min m (f x)) := rfl
    rcases ih (min m (f x)) with h | h
    · rcases min_choice m (f x) with h2 | h2
      · left; rw [h1, h, h2]
      · right; rw [h1, h, h2]; simp
    · right; rw [h1]; simp only [List.map_cons, List.mem_cons]; exact Or.inr h

theorem foldMinBy_go (f : EditableImage → Nat) (xs : List EditableImage) (m : Nat) :
    xs.foldl
      (fun acc img =>
        some (match acc with | none => f img | some m' => min m' (f img)))
      (some m)
      = some (xs.foldl (fun a img => min a (f img)) m) := by
  induction xs generalizing m with
  | nil => rfl
  | cons x xs ih => exact ih (min m (f x))

theorem foldMinBy_cons (f : EditableImage → Nat) (x : EditableImage)
    (xs : List EditableImage) :
    foldMinBy f (x :: xs) = some (xs.foldl (fun a img => min a (f img)) (f x)) :=
  foldMinBy_go f xs (f x)

/-- C1: for every non-empty batch, the canvas width and height are the
per-axis minimum of the analyzed images' widths and heights: each is one of
the source values and is a lower bound of them all, so it never exceeds any
single source image's dimensions; and the 1920×1080 / 1280×720 batch gets a
1280×720 canvas. -/
theorem canvas_is_per_axis_min (imgs : List EditableImage) (h : imgs ≠ []) :
    ((slideSize imgs).1 ∈ imgs.map (fun img => img.width)
      ∧ (slideSize imgs).2 ∈ imgs.map (fun img => img.height)
      ∧ ∀ img ∈ imgs, (slideSize imgs).1 ≤ img.width ∧ (slideSize imgs).2 ≤ img.height)
    ∧ slideSize [⟨1920, 1080⟩, ⟨1280, 720⟩] = (1280, 720) := by
  refine ⟨?_, by decide⟩
  obtain ⟨x, xs, rfl⟩ := List.exists_cons_of_ne_nil h
  have hw : (slideSize (x :: xs)).1 = xs.foldl (fun a img => min a img.width) x.width := by
    simp [slideSize, foldMinBy_cons]
  have hh : (slideSize (x :: xs)).2 = xs.foldl (fun a img => min a img.height) x.height := by
    simp [slideSize, foldMinBy_cons]
  refine ⟨?_, ?_, ?_⟩
  · rw [hw]
    rcases foldlMin_mem_or (fun img => img.width) xs x.width with h1 | h1
    · rw [h1]; simp
    · simp only [List.map_cons, List.mem_cons]; exact Or.inr h1
  · rw [hh]
    rcases foldlMin_mem_or (fun img => img.height) xs x.height with h1 | h1
    · rw [h1]; simp
    · simp only [List.map_cons, List.mem_cons]; exact Or.inr h1
  · intro img hmem
    rcases List.mem_cons.mp hmem with rfl | hmem
    · exact ⟨hw ▸ foldlMin_le_init _ xs _, hh ▸ foldlMin_le_init _ xs _⟩
    · exact ⟨hw ▸ foldlMin_le_mem _ xs _ img hmem, hh ▸ foldlMin_le_mem _ xs _ img hmem⟩

/-- C1 witness: the theorem applied to the concrete two-image batch
1920×1080, 1280×720. -/
theorem canvas_is_per_axis_min_witness :
    ([⟨1920, 1080⟩, ⟨1280, 720⟩] : List EditableImage) ≠ []
    ∧ slideSize [⟨1920, 1080⟩, ⟨1280, 720⟩] = (1280, 720) :=
  ⟨by decide, (canvas_is_per_axis_min [⟨1920, 1080⟩, ⟨1280, 720⟩] (by decide)).2⟩

/-- C7: on the empty batch of editable images, the slide-size computation
falls back to the fixed 1920×1080 default, and the (spec-modelled) export
still produces a valid, openable document on that canvas. -/
theorem empty_batch_default_canvas (out : OutPath) :
    slideSize [] = (1920, 1080)
    ∧ (create_editable_pptx [] (slideSize []).1 (slideSize []).2 out).slideWidth = 1920
    ∧ (create_editable_pptx [] (slideSize []).1 (slideSize []).2 out).slideHeight = 1080
    ∧ (create_editable_pptx [] (slideSize []).1 (slideSize []).2 out).isOpenable :=
  ⟨rfl, rfl, rfl, by show (0 : Nat) < 1920; decide, by show (0 : Nat) < 1080; decide⟩

/-- C8: every configuration built by `create_service_config` has
`max_depth = 1`, whatever the extractor and inpaint methods and whatever the
Baidu backend availability; in particular `maxDepth ≥ 1` always holds. -/
theorem config_max_depth_one (extractor_method inpaint_method : String)
    (baiduAvailable : Bool) :
    (create_service_config extractor_method inpaint_method baiduAvailable).config.max_depth = 1
    ∧ 1 ≤ (create_service_config extractor_method inpaint_method baiduAvailable).config.max_depth := by
  have h : (create_service_config extractor_method inpaint_method baiduAvailable).config.max_depth = 1 := by
    unfold create_service_config
    repeat' split
    all_goals rfl
  exact ⟨h, le_of_eq h.symm⟩

/-- C5: for the `generative` and `baidu` inpaint methods the registry
attached to the returned config always has a default provider; and when the
Baidu factory yields no provider, the generative provider is substituted as
the default and the fallback warning is logged. -/
theorem baidu_fallback_default (extractor_method : String) (baiduAvailable : Bool) :
    (∀ inpaint_method, inpaint_method = "generative" ∨ inpaint_method = "baidu" →
      ((create_service_config extractor_method inpaint_method baiduAvailable).config.inpaint_registry.defaultProvider).isSome = true)
    ∧ (create_service_config extractor_method "baidu" false).config.inpaint_registry.defaultProvider
        = some InpaintProvider.generative
    ∧ "Baidu inpainting unavailable, falling back to generative"
        ∈ (create_service_config extractor_method "baidu" false).warnings := by
  refine ⟨?_, rfl, List.mem_cons_self _ _⟩
  rintro m (rfl | rfl)
  · rfl
  · cases baiduAvailable <;> rfl

/-- C5 witness: the theorem applied to the concrete run with hybrid
extractor, baidu inpainting and an unavailable Baidu backend. -/
theorem baidu_fallback_default_witness :
    ((create_service_config "hybrid" "baidu" false).config.inpaint_registry.defaultProvider).isSome = true
    ∧ (create_service_config "hybrid" "baidu" false).config.inpaint_registry.defaultProvider
        = some InpaintProvider.generative :=
  ⟨(baidu_fallback_default "hybrid" false).1 "baidu" (Or.inr rfl),
   (baidu_fallback_default "hybrid" false).2.1⟩

/-- C4 counterexample: in the run with hybrid extractor and generative
inpainting, `create_service_config` assigns the `inpaint_registry` field on
the `ServiceConfig` object after `ServiceConfig.from_defaults` has built it,
so the post-construction assignment trace is not empty. -/
theorem config_mutated_counterexample :
    (create_service_config "hybrid" "generative" true).postAssignments = ["inpaint_registry"]
    ∧ (create_service_config "hybrid" "generative" true).postAssignments ≠ [] :=
  ⟨rfl, by decide⟩

/-- C4 amended: the only field ever assigned on the `ServiceConfig` after its
construction by `ServiceConfig.from_defaults` is `inpaint_registry`: it is
assigned exactly once, inside `create_service_config` itself, whenever the
inpaint method is not `hybrid`, and never when the inpaint method is
`hybrid`; after `create_service_config` returns, the configuration is never
mutated. -/
theorem config_assignment_only_registry (extractor_method inpaint_method : String)
    (baiduAvailable : Bool) :
    ((create_service_config extractor_method inpaint_method baiduAvailable).postAssignments = []
      ∨ (create_service_config extractor_method inpaint_method baiduAvailable).postAssignments
          = ["inpaint_registry"])
    ∧ (inpaint_method = "hybrid" →
        (create_service_config extractor_method inpaint_method baiduAvailable).postAssignments = [])
    ∧ (inpaint_method ≠ "hybrid" →
        (create_service_config extractor_method inpaint_method baiduAvailable).postAssignments
          = ["inpaint_registry"]) := by
  refine ⟨?_, ?_, ?_⟩
  · unfold create_service_config
    repeat' split
    all_goals first | (left; rfl) | (right; rfl)
  · rintro rfl
    rfl
  · intro h
    unfold create_service_config
    repeat' split
    all_goals try rfl
    all_goals rename_i hc
    all_goals exact absurd (by simpa [bne_iff_ne, not_not] using hc) h

/-- C4 witness: with hybrid inpainting no post-construction assignment
happens at all, and with a non-hybrid method (baidu) exactly the
`inpaint_registry` assignment happens. -/
theorem config_assignment_only_registry_witness :
    (create_service_config "hybrid" "hybrid" true).postAssignments = []
    ∧ (create_service_config "hybrid" "baidu" true).postAssignments
        = ["inpaint_registry"] :=
  ⟨(config_assignment_only_registry "hybrid" "hybrid" true).2.1 rfl,
   (config_assignment_only_registry "hybrid" "baidu" true).2.2 (by decide)⟩

/-- C10: if the requested output path exists, `convert` switches to the path
with `_1` appended to the stem; the rename happens exactly once and the
renamed path's existence is not consulted, so when both paths exist the `_1`
path is still the one written (and the doubly renamed `_1_1` path is never
chosen). -/
theorem output_rename_once (ex : OutPath → Bool) (p : OutPath) :
    (ex p = false → resolveOutputPath ex p = p)
    ∧ (ex p = true → resolveOutputPath ex p = renamedOnce p)
    ∧ (ex p = true → ex (renamedOnce p) = true →
        resolveOutputPath ex p = renamedOnce p
        ∧ resolveOutputPath ex p ≠ renamedOnce (renamedOnce p)) := by
  refine ⟨fun h => by simp [resolveOutputPath, h],
          fun h => by simp [resolveOutputPath, h],
          fun h _ => ⟨by simp [resolveOutputPath, h], ?_⟩⟩
  simp only [resolveOutputPath, h, if_true]
  intro hc
  have hlen := congrArg (fun q => q.stem.length) hc
  have h2 : ("_1" : String).length = 2 := rfl
  simp only [renamedOnce, String.length_append, h2] at hlen
  omega

/-- C10 witness: the theorem applied to a run where both `out.pptx` and
`out_1.pptx` exist. -/
theorem output_rename_once_witness :
    resolveOutputPath (fun q => (q.stem == "out") || (q.stem == "out_1"))
        ⟨"out", ".pptx"⟩
      = renamedOnce ⟨"out", ".pptx"⟩
    ∧ resolveOutputPath (fun q => (q.stem == "out") || (q.stem == "out_1"))
        ⟨"out", ".pptx"⟩
      ≠ renamedOnce (renamedOnce ⟨"out", ".pptx"⟩) :=
  (output_rename_once (fun q => (q.stem == "out") || (q.stem == "out_1"))
    ⟨"out", ".pptx"⟩).2.2 (by decide) (by decide)

/-! Characterization of `collect_image_paths`. -/

theorem foldl_append_filterMap (entries : List DirEntry) (r0 : List String) :
    entries.foldl
      (fun r e => if strLower e.suffix ∈ image_extensions then r ++ [e.resolved] else r)
      r0
    = r0 ++ entries.filterMap
        (fun e => if strLower e.suffix ∈ image_extensions then some e.resolved else none) := by
  induction entries generalizing r0 with
  | nil => simp
  | cons e es ih =>
    by_cases h : strLower e.suffix ∈ image_extensions
    · simp [h, ih]
    · simp [h, ih]

theorem collect_loop (lookup : String → PathNode) (paths : List String)
    (a w : List String) :
    paths.foldl (collectStep lookup) (a, w)
      = (a ++ paths.flatMap (imageArgContribution lookup),
         w ++ paths.filterMap (warnContribution lookup)) := by
  induction paths generalizing a w with
  | nil => simp
  | cons p ps ih =>
    rw [List.foldl_cons]
    cases hl : lookup p with
    | file suffix resolved =>
      by_cases h : strLower suffix ∈ image_extensions
      · rw [show collectStep lookup (a, w) p = (a ++ [resolved], w) by
          simp [collectStep, hl, h]]
        rw [ih]
        simp [imageArgContribution, warnContribution, hl, h]
      · rw [show collectStep lookup (a, w) p
            = (a, w ++ ["Skipping non-image file: " ++ p]) by
          simp [collectStep, hl, h]]
        rw [ih]
        simp [imageArgContribution, warnContribution, hl, h]
    | dir entries =>
      rw [show collectStep lookup (a, w) p
          = (a ++ (sortEntries entries).filterMap
              (fun e => if strLower e.suffix ∈ image_extensions then some e.resolved else none),
             w) by
        simp [collectStep, hl, foldl_append_filterMap]]
      rw [ih]
      simp [imageArgContribution, warnContribution, hl]
    | missing =>
      rw [show collectStep lookup (a, w) p
          = (a, w ++ ["Path does not exist: " ++ p]) by
        simp [collectStep, hl]]
      rw [ih]
      simp [imageArgContribution, warnContribution, hl]

/-- C9: `collect_image_paths` returns exactly the per-argument contributions
in argument order — a file argument contributes itself when its lowercased
suffix is a known image extension, a directory argument contributes its
matching entries in sorted name order — and logs one warning per non-image
file argument and per nonexistent path; it never deduplicates, so an image
path given twice appears twice. -/
theorem collect_paths_characterization (lookup : String → PathNode)
    (paths : List String) :
    ((collect_image_paths lookup paths).1
        = paths.flatMap (imageArgContribution lookup)
      ∧ (collect_image_paths lookup paths).2
        = paths.filterMap (warnContribution lookup))
    ∧ ∀ p suffix resolved, lookup p = .file suffix resolved →
        strLower suffix ∈ image_extensions →
        (collect_image_paths lookup [p, p]).1 = [resolved, resolved] := by
  refine ⟨?_, ?_⟩
  · unfold collect_image_paths
    rw [collect_loop]
    exact ⟨by simp, by simp⟩
  · intro p suffix resolved hl h
    unfold collect_image_paths
    rw [collect_loop]
    simp [imageArgContribution, hl, h]

/-- C9 witness: the theorem applied to a filesystem containing one image
file, given twice on the command line. -/
theorem collect_paths_characterization_witness :
    (collect_image_paths
        (fun s => if s == "a.png" then PathNode.file ".png" "/abs/a.png" else PathNode.missing)
        ["a.png", "a.png"]).1
      = ["/abs/a.png", "/abs/a.png"] :=
  (collect_paths_characterization
      (fun s => if s == "a.png" then PathNode.file ".png" "/abs/a.png" else PathNode.missing)
      ["a.png", "a.png"]).2
    "a.png" ".png" "/abs/a.png" (by decide) (by decide)

/-! Fan-out/fan-in: how the `as_completed` loop fills the result slots. -/

theorem collectResults_ok_char {α β ε : Type} (analyze : α → Except ε β)
    (paths : List α) :
    ∀ (order : List Nat) (results : List (Option β)),
      results.length = paths.length →
      (∀ i ∈ order, ∃ p v, paths[i]? = some p ∧ analyze p = Except.ok v) →
      ∃ final, collectResults analyze paths order results = .ok final
        ∧ final.length = results.length
        ∧ (∀ j p, j ∈ order → paths[j]? = some p →
            final[j]? = some ((analyze p).toOption))
        ∧ (∀ j, j ∉ order → final[j]? = results[j]?) := by
  intro order
  induction order with
  | nil =>
    intro results _ _
    exact ⟨results, rfl, rfl, fun j p hj => absurd hj (List.not_mem_nil j),
      fun _ _ => rfl⟩
  | cons i rest ih =>
    intro results hlen hok
    obtain ⟨p, v, hp, hv⟩ := hok i (List.mem_cons_self i rest)
    have hilt : i < paths.length := (List.getElem?_eq_some.mp hp).1
    have hstep : collectResults analyze paths (i :: rest) results
        = collectResults analyze paths rest (results.set i (some v)) := by
      simp only [collectResults, hp, hv]
    obtain ⟨final, hfin, hlen', hin, hout⟩ :=
      ih (results.set i (some v))
        (by rw [List.length_set]; exact hlen)
        (fun j hj => hok j (List.mem_cons_of_mem i hj))
    refine ⟨final, by rw [hstep]; exact hfin,
      by rw [hlen', List.length_set], ?_, ?_⟩
    · intro j q hj hq
      rcases List.mem_cons.mp hj with rfl | hj
      · by_cases hjr : j ∈ rest
        · exact hin j q hjr hq
        · have hq' : q = p := by
            rw [hp] at hq
            exact (Option.some.inj hq).symm
          rw [hout j hjr, List.getElem?_set, if_pos rfl,
            if_pos (hlen ▸ hilt), hq', hv]
          rfl
      · exact hin j q hj hq
    · intro j hj
      have hji : i ≠ j := fun h => hj (h ▸ List.mem_cons_self i rest)
      rw [hout j (fun h => hj (List.mem_cons_of_mem i h)),
        List.getElem?_set, if_neg hji]

theorem collectResults_perm_ok {α β ε : Type} (analyze : α → Except ε β)
    (paths : List α) (order : List Nat)
    (hperm : order.Perm (List.range paths.length))
    (hok : ∀ p ∈ paths, ∃ v, analyze p = .ok v) :
    collectResults analyze paths order (List.replicate paths.length none)
      = .ok (paths.map fun p => (analyze p).toOption) := by
  have hmem : ∀ i, i ∈ order ↔ i < paths.length := by
    intro i
    rw [hperm.mem_iff, List.mem_range]
  have hok' : ∀ i ∈ order, ∃ p v, paths[i]? = some p ∧ analyze p = Except.ok v := by
    intro i hi
    have hilt := (hmem i).mp hi
    have hp : paths[i]? = some paths[i] := List.getElem?_eq_getElem hilt
    obtain ⟨v, hv⟩ := hok paths[i] (List.mem_iff_getElem?.mpr ⟨i, hp⟩)
    exact ⟨paths[i], v, hp, hv⟩
  obtain ⟨final, hfin, hlen, hin, hout⟩ :=
    collectResults_ok_char analyze paths order (List.replicate paths.length none)
      (List.length_replicate _ _) hok'
  rw [hfin]
  congr 1
  apply List.ext_getElem?
  intro j
  by_cases hj : j < paths.length
  · have hp : paths[j]? = some paths[j] := List.getElem?_eq_getElem hj
    rw [hin j paths[j] ((hmem j).mpr hj) hp, List.getElem?_map, hp]
    rfl
  · rw [hout j (fun h => hj ((hmem j).mp h)),
      List.getElem?_eq_none (by rw [List.length_replicate]; omega),
      List.getElem?_eq_none (by rw [List.length_map]; omega)]

theorem collectResults_ok_forall {α β ε : Type} (analyze : α → Except ε β)
    (paths : List α) :
    ∀ (order : List Nat) (results final : List (Option β)),
      collectResults analyze paths order results = .ok final →
      ∀ i ∈ order, ∀ p, paths[i]? = some p → ∃ v, analyze p = .ok v := by
  intro order
  induction order with
  | nil => intro _ _ _ i hi; cases hi
  | cons i rest ih =>
    intro results final hres j hj p hp
    simp only [collectResults] at hres
    rcases List.mem_cons.mp hj with rfl | hj
    · simp only [hp] at hres
      cases hv : analyze p with
      | ok v => exact ⟨v, rfl⟩
      | error e =>
        simp only [hv] at hres
        exact Except.noConfusion hres
    · cases hpi : paths[i]? with
      | none =>
        simp only [hpi] at hres
        exact ih results final hres j hj p hp
      | some q =>
        simp only [hpi] at hres
        cases hv : analyze q with
        | ok v =>
          simp only [hv] at hres
          exact ih _ final hres j hj p hp
        | error e =>
          simp only [hv] at hres
          exact Except.noConfusion hres

theorem collectResults_error_src {α β ε : Type} (analyze : α → Except ε β)
    (paths : List α) :
    ∀ (order : List Nat) (results : List (Option β)) (e : ε),
      collectResults analyze paths order results = .error e →
      ∃ i ∈ order, ∃ p, paths[i]? = some p ∧ analyze p = .error e := by
  intro order
  induction order with
  | nil => intro _ _ h; cases h
  | cons i rest ih =>
    intro results e hres
    simp only [collectResults] at hres
    cases hpi : paths[i]? with
    | none =>
      simp only [hpi] at hres
      obtain ⟨j, hj, p, hp, hv⟩ := ih results e hres
      exact ⟨j, List.mem_cons_of_mem i hj, p, hp, hv⟩
    | some q =>
      simp only [hpi] at hres
      cases hv : analyze q with
      | ok v =>
        simp only [hv] at hres
        obtain ⟨j, hj, p, hp, hvv⟩ := ih _ e hres
        exact ⟨j, List.mem_cons_of_mem i hj, p, hp, hvv⟩
      | error e' =>
        simp only [hv] at hres
        have he : e' = e := by
          injection hres
        subst he
        exact ⟨i, List.mem_cons_self i rest, q, hpi, hv⟩

theorem allSome_of_forall_isSome {β : Type} :
    ∀ l : List (Option β), (∀ x ∈ l, x.isSome) → ∃ ys, allSome l = some ys := by
  intro l
  induction l with
  | nil => intro _; exact ⟨[], rfl⟩
  | cons x xs ih =>
    intro h
    cases x with
    | none => exact absurd (h none (List.mem_cons_self _ _)) (by simp)
    | some b =>
      obtain ⟨ys, hys⟩ := ih (fun y hy => h y (List.mem_cons_of_mem _ hy))
      exact ⟨b :: ys, by simp [allSome, hys]⟩

/-- C2: whatever order the worker-pool futures complete in (any permutation
of the submitted indices), when every analysis succeeds the result list of
the batch step is index-aligned with the input paths — slot `i` holds the
analysis of `paths[i]` — and each index slot is written exactly once (index
`i` occurs exactly once in the completion order). -/
theorem batch_results_input_order {α β ε : Type} (analyze : α → Except ε β)
    (paths : List α) (order : List Nat)
    (hperm : order.Perm (List.range paths.length))
    (hok : ∀ p ∈ paths, ∃ v, analyze p = .ok v) :
    collectResults analyze paths order (List.replicate paths.length none)
      = .ok (paths.map fun p => (analyze p).toOption)
    ∧ ∀ i, i < paths.length → order.count i = 1 := by
  refine ⟨collectResults_perm_ok analyze paths order hperm hok, ?_⟩
  intro i hi
  rw [hperm.count_eq i]
  exact List.count_eq_one_of_mem (List.nodup_range _) (List.mem_range.mpr hi)

/-- C2 witness: the theorem applied to a three-image batch whose futures
complete in the order 1, 0, 2. -/
theorem batch_results_input_order_witness :
    collectResults (fun n => (Except.ok (n * 2) : Except Unit Nat)) [3, 5, 7]
        [1, 0, 2] (List.replicate 3 none)
      = Except.ok [some 6, some 10, some 14]
    ∧ ∀ i, i < 3 → List.count i [1, 0, 2] = 1 := by
  have h := batch_results_input_order (fun n => (Except.ok (n * 2) : Except Unit Nat))
    [3, 5, 7] [1, 0, 2] (by decide) (fun p _ => ⟨p * 2, rfl⟩)
  exact ⟨h.1.trans rfl, fun i hi => h.2 i hi⟩

/-- C3: if any collected image's analysis fails, then for every completion
order of the worker pool `convert` ends in a batch-level failure — raised by
the first failing future observed and caught by the outer handler — with no
output document produced, and the batch error is the error of one of the
images' analyses. -/
theorem first_failure_aborts {ε : Type} (lookup : String → PathNode)
    (analyze : String → Except ε EditableImage) (order : List Nat)
    (ex : OutPath → Bool) (out : OutPath) (args : List String)
    (hperm : order.Perm (List.range (collect_image_paths lookup args).1.length))
    (hfail : ∃ p ∈ (collect_image_paths lookup args).1, ∃ e, analyze p = .error e) :
    ∃ e, convertRun lookup analyze order ex out args
        = .conversionFailed (some e)
      ∧ ∃ p ∈ (collect_image_paths lookup args).1, analyze p = .error e := by
  obtain ⟨p0, hp0, e0, he0⟩ := hfail
  have hne : ((collect_image_paths lookup args).1).isEmpty = false := by
    cases h : ((collect_image_paths lookup args).1).isEmpty
    · rfl
    · rw [List.isEmpty_iff] at h
      rw [h] at hp0
      cases hp0
  cases hres : collectResults analyze (collect_image_paths lookup args).1 order
      (List.replicate (collect_image_paths lookup args).1.length none) with
  | ok final =>
    exfalso
    obtain ⟨i, hpi⟩ := List.mem_iff_getElem?.mp hp0
    have hi : i ∈ order := by
      rw [hperm.mem_iff, List.mem_range]
      exact (List.getElem?_eq_some.mp hpi).1
    obtain ⟨v, hv⟩ :=
      collectResults_ok_forall analyze (collect_image_paths lookup args).1 order
        _ final hres i hi p0 hpi
    rw [he0] at hv
    cases hv
  | error e =>
    refine ⟨e, ?_, ?_⟩
    · simp [convertRun, hne, hres]
    · obtain ⟨i, hi, p, hp, hv⟩ :=
        collectResults_error_src analyze (collect_image_paths lookup args).1 order
          _ e hres
      exact ⟨p, List.mem_iff_getElem?.mpr ⟨i, hp⟩, hv⟩

/-- C3 witness: the theorem applied to a one-image batch whose analysis
always fails. -/
theorem first_failure_aborts_witness :
    ∃ e : Nat, convertRun
        (fun s => if s == "a.png" then PathNode.file ".png" "/abs/a.png" else PathNode.missing)
        (fun _ => (Except.error 42 : Except Nat EditableImage)) [0]
        (fun _ => false) ⟨"out", ".pptx"⟩ ["a.png"]
      = ConvertOutcome.conversionFailed (some e)
      ∧ ∃ p ∈ (collect_image_paths
          (fun s => if s == "a.png" then PathNode.file ".png" "/abs/a.png" else PathNode.missing)
          ["a.png"]).1,
          (fun _ => (Except.error 42 : Except Nat EditableImage)) p = Except.error e :=
  first_failure_aborts _ _ _ _ _ _ (by decide)
    ⟨"/abs/a.png", by decide, 42, rfl⟩

/-! Aspect-ratio warning accounting. -/

theorem ratioWarnings_lb :
    ∀ (imgs : List EditableImage) (i m : Nat),
      m ∈ ratioWarnings i imgs → i + 1 ≤ m := by
  intro imgs
  induction imgs with
  | nil => intro i m h; cases h
  | cons img rest ih =>
    intro i m h
    simp only [ratioWarnings] at h
    rcases List.mem_append.mp h with h1 | h1
    · cases hw : outOfTol img
      · rw [hw] at h1
        simp at h1
      · rw [hw] at h1
        simp at h1
        omega
    · have := ih (i + 1) m h1
      omega

theorem ratioWarnings_count :
    ∀ (imgs : List EditableImage) (i j : Nat) (hj : j < imgs.length),
      (ratioWarnings i imgs).count (i + j + 1)
        = if outOfTol imgs[j] then 1 else 0 := by
  intro imgs
  induction imgs with
  | nil => intro i j hj; cases hj
  | cons img rest ih =>
    intro i j hj
    cases j with
    | zero =>
      simp only [ratioWarnings, List.count_append, List.getElem_cons_zero]
      have h2 : (ratioWarnings (i + 1) rest).count (i + 0 + 1) = 0 := by
        rw [List.count_eq_zero]
        intro hmem
        have := ratioWarnings_lb rest (i + 1) _ hmem
        omega
      rw [h2]
      by_cases hw : outOfTol img = true
      · simp [hw]
      · simp [hw]
    | succ j' =>
      have hj' : j' < rest.length := by simpa using hj
      simp only [ratioWarnings, List.count_append, List.getElem_cons_succ]
      have h1 : ((if outOfTol img then [i + 1] else []) : List Nat).count
          (i + (j' + 1) + 1) = 0 := by
        by_cases hw : outOfTol img = true
        · rw [if_pos hw, List.count_eq_zero]
          intro hmem
          rw [List.mem_singleton] at hmem
          omega
        · rw [if_neg hw]
          rfl
      rw [h1]
      have harith : i + 1 + j' + 1 = i + (j' + 1) + 1 := by omega
      have := ih (i + 1) j' hj'
      rw [harith] at this
      rw [this]
      simp

/-- C6: each analyzed image whose aspect ratio deviates from 16:9 by more
than the 2% relative tolerance gets exactly one not-16:9 warning (the image
within tolerance gets none), and the warnings never block the run: with a
successful batch, `convert` still proceeds to export a document whatever the
images' aspect ratios. -/
theorem ratio_warning_per_image {ε : Type} :
    (∀ (imgs : List EditableImage) (j : Nat) (hj : j < imgs.length),
      (ratioWarnings 0 imgs).count (j + 1) = if outOfTol imgs[j] then 1 else 0)
    ∧ (∀ (lookup : String → PathNode) (analyze : String → Except ε EditableImage)
        (order : List Nat) (ex : OutPath → Bool) (out : OutPath)
        (args : List String),
        (collect_image_paths lookup args).1 ≠ [] →
        order.Perm (List.range (collect_image_paths lookup args).1.length) →
        (∀ p ∈ (collect_image_paths lookup args).1, ∃ v, analyze p = .ok v) →
        ∃ doc, convertRun lookup analyze order ex out args = .exported doc) := by
  constructor
  · intro imgs j hj
    have h := ratioWarnings_count imgs 0 j hj
    simpa using h
  · intro lookup analyze order ex out args hne hperm hok
    have hne' : ((collect_image_paths lookup args).1).isEmpty = false := by
      cases h : ((collect_image_paths lookup args).1).isEmpty
      · rfl
      · rw [List.isEmpty_iff] at h
        exact absurd h hne
    have hres := collectResults_perm_ok analyze (collect_image_paths lookup args).1
      order hperm hok
    have hsome : ∀ x ∈ (collect_image_paths lookup args).1.map
        (fun p => (analyze p).toOption), x.isSome := by
      intro x hx
      obtain ⟨p, hp, rfl⟩ := List.mem_map.mp hx
      obtain ⟨v, hv⟩ := hok p hp
      rw [hv]
      rfl
    obtain ⟨ys, hys⟩ := allSome_of_forall_isSome _ hsome
    refine ⟨create_editable_pptx ys (slideSize ys).1 (slideSize ys).2
      (resolveOutputPath ex out), ?_⟩
    simp [convertRun, hne', hres, hys]

/-- C6 witness: a single 4:3 image (1024×768) — the run exports a document
and exactly one ratio warning is logged for image 1. -/
theorem ratio_warning_per_image_witness :
    (ratioWarnings 0 [⟨1024, 768⟩]).count 1 = 1
    ∧ ∃ doc, convertRun
        (fun s => if s == "a.png" then PathNode.file ".png" "/abs/a.png" else PathNode.missing)
        (fun _ => (Except.ok ⟨1024, 768⟩ : Except Unit EditableImage)) [0]
        (fun _ => false) ⟨"out", ".pptx"⟩ ["a.png"]
      = ConvertOutcome.exported doc := by
  constructor
  · have h := (ratio_warning_per_image (ε := Unit)).1 [⟨1024, 768⟩] 0 (by decide)
    have hc : outOfTol (⟨1024, 768⟩ : EditableImage) = true := by
      apply decide_eq_true
      show ratioDiff ⟨1024, 768⟩ > 2 / 100
      unfold ratioDiff
      norm_num
      rw [show |(4 : ℚ) / 9| = 4 / 9 from abs_of_pos (by norm_num)]
      norm_num
    simpa [hc] using h
  · exact (ratio_warning_per_image (ε := Unit)).2 _ _ _ _ _ _ (by decide) (by decide)
      (fun p _ => ⟨⟨1024, 768⟩, rfl⟩)

end BananaSlides
